import Mathlib

/-!
Shallow embedding of the registry validation engine
(`scripts/validate_registry.py`) of the application-intent-language
repository, together with theorems settling the frozen claims about it.

Strings are modelled as `List Char` (`Str`); file contents are raw character
lists; paths are lists of path components (`List Str`).  All definitions are
structural recursions, so every concrete run can be evaluated by `decide` or
`rfl`.
-/

set_option maxRecDepth 10000

deriving instance DecidableEq for Except

/-- A Python `str` is modelled as a list of characters. -/
abbrev Str := List Char

/-- Character list of a Lean string literal (helper for writing constants). -/
def strL (x : String) : Str := x.data

/-- Python's whitespace set for `str.strip` and regex `\s`
(ASCII fragment, which is all the validator's inputs use). -/
def isWS (ch : Char) : Bool :=
  ch == ' ' || ch == '\t' || ch == '\n' || ch == '\r' || ch == '\x0b' || ch == '\x0c'

/-- Regex class `[0-9]`. -/
def isDigitC (ch : Char) : Bool := ('0' ≤ ch) && (ch ≤ '9')

/-- Regex class `[a-z]`. -/
def isLowerC (ch : Char) : Bool := ('a' ≤ ch) && (ch ≤ 'z')

/-- Regex class `[a-z0-9]` used by `FEATURE_RE` and the header grammar. -/
def isLowerAlnum (ch : Char) : Bool := isLowerC ch || isDigitC ch

/-- Regex class `\w` (ASCII fragment), used for the `\b` boundary after
`INCLUDES`. -/
def isWordChar (ch : Char) : Bool :=
  isLowerC ch || isDigitC ch || (('A' ≤ ch) && (ch ≤ 'Z')) || ch == '_'

/-- Split a character list at every occurrence of `sep` (like
`str.split(sep)` in Python: `n+1` pieces for `n` separators, empty pieces
kept). -/
def splitOnC (sep : Char) : Str → List Str
  | [] => [[]]
  | ch :: rest =>
    match splitOnC sep rest with
    | [] => [[]]
    | h :: t => if ch == sep then [] :: h :: t else (ch :: h) :: t

/-- Join with `.` — Python's `".".join(...)`. -/
def joinDots : List Str → Str
  | [] => []
  | [x] => x
  | x :: y :: xs => x ++ '.' :: joinDots (y :: xs)

/-- Join with `/` — the textual form of a path, used for ordering. -/
def joinSlash : List Str → Str
  | [] => []
  | [x] => x
  | x :: y :: xs => x ++ '/' :: joinSlash (y :: xs)

/-- Python `str.splitlines` restricted to `'\n'` separators (the only line
separator occurring in the validated files): no trailing empty line, and the
empty string yields no lines. -/
def splitlinesAux (acc : Str) : Str → List Str
  | [] => [acc.reverse]
  | ch :: rest =>
    if ch == '\n' then
      match rest with
      | [] => [acc.reverse]
      | _ :: _ => acc.reverse :: splitlinesAux [] rest
    else splitlinesAux (ch :: acc) rest

/-- Python `str.splitlines` (see `splitlinesAux`). -/
def splitlines (l : Str) : List Str :=
  match l with
  | [] => []
  | _ :: _ => splitlinesAux [] l

/-- Python `str.strip()`: drop whitespace from both ends. -/
def stripWS (l : Str) : Str :=
  ((l.dropWhile isWS).reverse.dropWhile isWS).reverse

/-- Python's `in` on strings: contiguous-substring test. -/
def isInfixB (t : Str) : Str → Bool
  | [] => t.isEmpty
  | l@(_ :: rest) => t.isPrefixOf l || isInfixB t rest

/-- Lexicographic `≤` on character lists — Python's string ordering. -/
def lexLe : Str → Str → Bool
  | [], _ => true
  | _ :: _, [] => false
  | a :: as, b :: bs => if a < b then true else if a == b then lexLe as bs else false

/-- Insertion step of a stable insertion sort. -/
def insertSorted (le : α → α → Bool) (x : α) : List α → List α
  | [] => [x]
  | y :: ys => if le x y then x :: y :: ys else y :: insertSorted le x ys

/-- Stable insertion sort modelling Python's `sorted`. -/
def sortByLe (le : α → α → Bool) (l : List α) : List α :=
  l.foldr (insertSorted le) []

/-- `pathlib`'s parse of a path string into components: split on `/`,
dropping empty components and single-dot components. -/
def pathParts (s : Str) : List Str :=
  (splitOnC '/' s).filter (fun seg => !(seg.isEmpty) && seg != ['.'])

/-- `pathlib`'s `is_absolute` on POSIX: the string starts with `/`. -/
def isAbsStr (s : Str) : Bool :=
  match s with
  | [] => false
  | ch :: _ => ch == '/'

/-- The maximal dot-free run at the end of a file name (read off its
reversal); `name.rfind of a dot` in CPython terms. -/
def extRun (name : Str) : Str := name.reverse.takeWhile (fun ch => ch != '.')

/-- The index of the last dot of `name` (meaningful only when a dot
exists). -/
def dotIdx (name : Str) : Nat := name.length - 1 - (extRun name).length

/-- `pathlib`'s `(stem, suffix)` split of a file name: splits at the last
dot provided it is neither the first nor the last character; otherwise the
suffix is empty (CPython's `0 < i < len(name) - 1` rule). -/
def pathSplitExt (name : Str) : Str × Str :=
  if (extRun name).length == name.length then (name, [])
  else if decide (0 < dotIdx name) && decide (dotIdx name < name.length - 1) then
    (name.take (dotIdx name), name.drop (dotIdx name))
  else (name, [])

/-- `Path.relative_to`: strip the root prefix, or `none` when the path is
not under the root (Python raises `ValueError` there). -/
def relTo (p root : List Str) : Option (List Str) :=
  if root.isPrefixOf p then some (p.drop root.length) else none

/-! ## Grammar constants of `validate_registry.py` -/

/-- `FACETS` (line 20): the eight recognized facet names. -/
def FACETSl : List Str :=
  [strL ("intent"), strL ("schema"), strL ("flow"), strL ("contract"),
   strL ("persona"), strL ("view"), strL ("event"), strL ("mapping")]

/-- `LEGACY_TOKENS` (line 16), in tuple order. -/
def LEGACYl : List Str :=
  [strL (":::AIL_METADATA"), strL (":::AIM_METADATA"),
   strL ("FEATURE:"), strL ("FACET:"), strL ("VERSION:")]

/-- The alternation of `INCLUDES_ENTRY_RE` (line 18): the facet keys the
includes-entry grammar accepts.  Note `intent` and `mapping` are absent. -/
def INCLUDE_KEYSl : List Str :=
  [strL ("schema"), strL ("flow"), strL ("contract"),
   strL ("persona"), strL ("view"), strL ("event")]

/-- The source extension `.intent` as characters. -/
def intentExt : Str := strL (".intent")

/-- `FEATURE_RE = ^[a-z0-9]+(?:\.[a-z0-9]+)*$` as a character automaton:
the boolean argument records whether the current dot-separated segment
already holds at least one `[a-z0-9]` character. -/
def featureOkAux : Bool → Str → Bool
  | seen, [] => seen
  | seen, ch :: rest =>
    if isLowerAlnum ch then featureOkAux true rest
    else if ch == '.' then seen && featureOkAux false rest
    else false

/-- Full match of `FEATURE_RE` (line 14). -/
def featureOk (l : Str) : Bool := featureOkAux false l

/-- Full match of `VERSION_RE = ^[0-9]+\.[0-9]+$` (line 15): a maximal
nonempty digit run, a dot, and a nonempty digit run to the end. -/
def versionOk (v : Str) : Bool :=
  let a := v.takeWhile isDigitC
  let rest := v.dropWhile isDigitC
  (!a.isEmpty) &&
    (match rest with
     | ch :: b => ch == '.' && (!b.isEmpty) && b.all isDigitC
     | [] => false)

/-- Full match of `HEADER_RE` (lines 11-13):
`^AIM:\s+<feature>#<facet>@<version>$`.  The three character classes
exclude `#` and `@`, so the split at the unique `#` and `@` is exactly the
regex's decomposition. -/
def headerMatch (l : Str) : Option (Str × Str × Str) :=
  if (strL ("AIM:")).isPrefixOf l then
    if ((l.drop 4).takeWhile isWS).isEmpty then none
    else
      match splitOnC '#' ((l.drop 4).dropWhile isWS) with
      | [fpart, rest] =>
        match splitOnC '@' rest with
        | [cpart, vpart] =>
          if featureOk fpart && FACETSl.contains cpart && versionOk vpart then
            some (fpart, cpart, vpart)
          else none
        | _ => none
      | _ => none
  else none

/-! ## Error taxonomy

One constructor per `fail(...)` site of the script, carrying the data the
message interpolates (paths are abstracted to the component lists shown). -/

/-- Validation failures of `validate_registry.py` (each `fail` call). -/
inductive Err where
  | legacyToken (token : Str)
  | headerGrammar
  | wrongExtension (parts : List Str)
  | flatNameInvalid (name : Str)
  | invalidFeature (feature : Str)
  | invalidFacet (facet : Str)
  | featureMismatch (pathFeature headerFeature : Str)
  | facetMismatch (pathFacet headerFacet : Str)
  | pkgFeatureMismatch (headerFeature expected : Str)
  | pkgVersionMismatch (headerVersion expected : Str)
  | relativeToValueError
  | entryFacet (facet : Str)
  | multipleIncludesBlocks
  | malformedIncludesDecl
  | malformedIncludesEntry (line : Str)
  | duplicateIncludeKey (key : Str)
  | unterminatedIncludes
  | includeAbsolutePath (rel : Str)
  | includeWrongExtension (rel : Str)
  | includeTraversal (rel : Str)
  | includeMissing (rel : Str)
  | includeFacetMismatch (rel facet key : Str)
  | duplicateIdentity (feature facet : Str) (first second : List Str)
  | intentCountNotOne (n : Nat)
  | entryNotIntentFile
  | indexRootNotObject
  | indexMissingKey (key : Str)
  | packagesNotNonemptyArray
  | pkgNotObject (idx : Nat)
  | pkgMissingKey (idx : Nat) (key : Str)
  | invalidPackageName
  | duplicatePackageName (name : Str)
  | invalidPackageVersion (name : Str)
  | entryNotIntentPath (name : Str)
  | entryDoesNotExist (name entry : Str)
  | entryBadPrefix (name entry : Str)
  | packageIndexMismatch (missingInIndex missingOnDisk : List Str)
  deriving DecidableEq

/-! ## Header Parser, Identity Deriver, Source Validator -/

/-- The header-grammar stage of `parse_header` (lines 33-38): strip the
first line (the empty string when the content has no lines — the guarded
`lines[0] if lines else ""`) and match it against the header grammar. -/
def headerStage (content : Str) : Except Err (Str × Str × Str) :=
  match headerMatch (stripWS (((splitlines content).head?).getD [])) with
  | none => .error .headerGrammar
  | some r => .ok r

/-- `parse_header` (lines 28-38) on the file's raw content: scan the whole
content for legacy tokens first (in tuple order), then match the stripped
first line against the header grammar. -/
def parse_header (content : Str) : Except Err (Str × Str × Str) :=
  match LEGACYl.find? (fun t => isInfixB t content) with
  | some t => .error (.legacyToken t)
  | none => headerStage content

/-- Shared tail of `derive_identity_from_relpath` (lines 59-63): the
feature-grammar and facet-membership checks on a candidate identity. -/
def deriveFinish (feature facet : Str) : Except Err (Str × Str) :=
  if featureOk feature then
    if FACETSl.contains facet then .ok (feature, facet)
    else .error (.invalidFacet facet)
  else .error (.invalidFeature feature)

/-- `rel_path.name[:-len(".intent")]` (line 46): the flat file name with
the extension stripped. -/
def stemOf (name : Str) : Str := name.take (name.length - 7)

/-- `stem_parts` (line 46): the stripped flat name split at dots. -/
def stemPartsOf (name : Str) : List Str := splitOnC '.' (stemOf name)

/-- `stem_parts[-1]` (line 47): the last dot-segment of the flat stem. -/
def lastSegOf (name : Str) : Str := (((stemPartsOf name).getLast?).getD [])

/-- The flat branch of `derive_identity_from_relpath` (lines 45-54). -/
def deriveFlat (name : Str) : Except Err (Str × Str) :=
  if FACETSl.contains (lastSegOf name) then
    if (stemPartsOf name).length < 2 then .error (.flatNameInvalid name)
    else deriveFinish (joinDots (stemPartsOf name).dropLast) (lastSegOf name)
  else deriveFinish (joinDots (stemPartsOf name)) (strL ("intent"))

/-- `derive_identity_from_relpath` (lines 41-63): compute the identity a
source file should declare from its path relative to the package root.
`rel` is the list of path components; the final component is the file
name. -/
def derive (rel : List Str) : Except Err (Str × Str) :=
  if (pathSplitExt ((rel.getLast?).getD [])).2 == intentExt then
    if rel.length == 1 then deriveFlat ((rel.getLast?).getD [])
    else deriveFinish (joinDots rel.dropLast) (pathSplitExt ((rel.getLast?).getD [])).1
  else .error (.wrongExtension rel)

/-- The equality assertions of `validate_source_file` (lines 77-85):
path-derived identity against the header identity, then the expected
package feature/version when supplied. -/
def vsfChecks (feature facet version pathFeature pathFacet : Str)
    (expFeature expVersion : Option Str) : Except Err (Str × Str × Str) :=
  if pathFeature != feature then .error (.featureMismatch pathFeature feature)
  else if pathFacet != facet then .error (.facetMismatch pathFacet facet)
  else
    match expFeature with
    | some fexp =>
      if feature != fexp then .error (.pkgFeatureMismatch feature fexp)
      else
        match expVersion with
        | some vexp =>
          if version != vexp then .error (.pkgVersionMismatch version vexp)
          else .ok (feature, facet, version)
        | none => .ok (feature, facet, version)
    | none =>
      match expVersion with
      | some vexp =>
        if version != vexp then .error (.pkgVersionMismatch version vexp)
        else .ok (feature, facet, version)
      | none => .ok (feature, facet, version)

/-- The path-identity stage of `validate_source_file` (lines 74-85),
entered with the already-parsed header triple. -/
def vsfAfterHeader (feature facet version : Str) (parts pkgRoot : List Str)
    (expFeature expVersion : Option Str) : Except Err (Str × Str × Str) :=
  match relTo parts pkgRoot with
  | none => .error .relativeToValueError
  | some rel =>
    match derive rel with
    | .error e => .error e
    | .ok (pathFeature, pathFacet) =>
      vsfChecks feature facet version pathFeature pathFacet expFeature expVersion

/-- `validate_source_file` (lines 66-85): parse the header, derive the
path identity, and assert the two agree and match the expected package
feature/version when supplied.  `parts` is the file's path, `pkgRoot` the
package root it is taken relative to. -/
def validate_source_file (content : Str) (parts pkgRoot : List Str)
    (expFeature expVersion : Option Str) : Except Err (Str × Str × Str) :=
  match parse_header content with
  | .error e => .error e
  | .ok (feature, facet, version) =>
    vsfAfterHeader feature facet version parts pkgRoot expFeature expVersion

/-! ## Include Graph Resolver -/

/-- Match of `INCLUDES_START_RE = ^\s*INCLUDES\s*\{\s*$` (line 17). -/
def includesStartMatch (l : Str) : Bool :=
  let r1 := l.dropWhile isWS
  (strL ("INCLUDES")).isPrefixOf r1 &&
    (match (r1.drop 8).dropWhile isWS with
     | b :: r3 => b == '\x7b' && r3.all isWS
     | [] => false)

/-- Match of `^\s*INCLUDES\b` (line 139): the keyword at line start followed
by a word boundary. -/
def includesDeclMatch (l : Str) : Bool :=
  let r1 := l.dropWhile isWS
  (strL ("INCLUDES")).isPrefixOf r1 &&
    (match r1.drop 8 with
     | [] => true
     | ch :: _ => !isWordChar ch)

/-- Match of `INCLUDES_END_RE = ^\s*}\s*$` (line 19). -/
def includesEndMatch (l : Str) : Bool :=
  match l.dropWhile isWS with
  | b :: rest => b == '\x7d' && rest.all isWS
  | [] => false

/-- Match of `INCLUDES_ENTRY_RE = ^\s*(schema|flow|contract|persona|view|event)\s*:\s*"([^"]+)"\s*$`
(line 18), returning the captured key and path. -/
def includesEntryMatch (l : Str) : Option (Str × Str) :=
  if INCLUDE_KEYSl.contains ((l.dropWhile isWS).takeWhile isLowerC) then
    match ((l.dropWhile isWS).drop
        ((l.dropWhile isWS).takeWhile isLowerC).length).dropWhile isWS with
    | ':' :: r3 =>
      match r3.dropWhile isWS with
      | '"' :: r5 =>
        if (r5.takeWhile (fun ch => ch != '"')).isEmpty then none
        else
          match r5.drop (r5.takeWhile (fun ch => ch != '"')).length with
          | '"' :: r7 =>
            if r7.all isWS then
              some ((l.dropWhile isWS).takeWhile isLowerC,
                r5.takeWhile (fun ch => ch != '"'))
            else none
          | _ => none
      | _ => none
    | _ => none
  else none

/-- Parser state of the `INCLUDES` block scan of `validate_includes`
(lines 104-142): either outside any block (recording whether one block was
already seen) or inside a block (recording the keys seen so far). -/
inductive PIMode where
  | outside (found : Bool)
  | inside (found : Bool) (seen : List Str)
  deriving DecidableEq

/-- The line scan of `validate_includes` (lines 107-142), one line per
step.  The Python nested `while` loops examine each line exactly once, so
they flatten to this single pass. -/
def piGo : List Str → PIMode → List (Str × Str) → Except Err (List (Str × Str))
  | [], mode, acc =>
    match mode with
    | .inside _ _ => .error .unterminatedIncludes
    | .outside _ => .ok acc
  | l :: rest, .outside found, acc =>
    if includesStartMatch l then
      if found then .error .multipleIncludesBlocks
      else piGo rest (.inside found []) acc
    else if includesDeclMatch l then .error .malformedIncludesDecl
    else piGo rest (.outside found) acc
  | l :: rest, .inside _ seen, acc =>
    if includesEndMatch l then piGo rest (.outside true) acc
    else if (stripWS l).isEmpty then piGo rest (.inside true seen) acc
    else
      match includesEntryMatch l with
      | none => .error (.malformedIncludesEntry (stripWS l))
      | some (key, rel) =>
        if seen.contains key then .error (.duplicateIncludeKey key)
        else piGo rest (.inside true (key :: seen)) (acc ++ [(key, rel)])

/-- The parse phase of `validate_includes`: collect the `(facet, path)`
entries of the at-most-one `INCLUDES` block of the entry file's lines. -/
def parseIncludes (lines : List Str) : Except Err (List (Str × Str)) :=
  piGo lines (.outside false) []

/-! ## Filesystem model

The validator reads a fixed tree; we model the part it consults: the set of
package directory names under `registry/packages`, and a map from
ROOT-relative file paths (component lists) to raw contents.  `files` holds
regular files only. -/

/-- The registry tree as the validator sees it. -/
structure FS where
  pkgDirs : List Str
  files : List (List Str × Str)

/-- `Path.exists` + `Path.read_text` combined: the content stored at a
path, when present. -/
def fsLookup (fs : FS) (p : List Str) : Option Str :=
  (fs.files.find? (fun e => e.1 == p)).map (fun e => e.2)

/-- `registry/packages/<name>` as ROOT-relative components. -/
def pkgRootOf (name : Str) : List Str :=
  [strL ("registry"), strL ("packages"), name]

/-- The per-entry resolution loop body of `validate_includes`
(lines 144-162): path-shape checks in order, then target lookup, then
source validation and facet comparison against the include key. -/
def resolveOneInclude (fs : FS) (entryDir : List Str) (expFeature expVersion : Str)
    (key rel : Str) : Except Err Unit :=
  if isAbsStr rel then .error (.includeAbsolutePath rel)
  else if !(intentExt.isSuffixOf rel) then .error (.includeWrongExtension rel)
  else if (pathParts rel).contains (strL ("..")) then .error (.includeTraversal rel)
  else
    match fsLookup fs (entryDir ++ pathParts rel) with
    | none => .error (.includeMissing rel)
    | some content =>
      match validate_source_file content (entryDir ++ pathParts rel) (pkgRootOf expFeature)
          (some expFeature) (some expVersion) with
      | .error e => .error e
      | .ok (_, facet, _) =>
        if facet != key then .error (.includeFacetMismatch rel facet key)
        else .ok ()

/-- Resolve every parsed include entry in order (the `for` loop of
line 144). -/
def resolveIncludesList (fs : FS) (entryDir : List Str)
    (expFeature expVersion : Str) : List (Str × Str) → Except Err Unit
  | [] => .ok ()
  | (key, rel) :: rest =>
    match resolveOneInclude fs entryDir expFeature expVersion key rel with
    | .error e => .error e
    | .ok () => resolveIncludesList fs entryDir expFeature expVersion rest

/-- `validate_includes` (lines 101-162) on the entry file's content. -/
def validate_includes (fs : FS) (entryPath : List Str) (content : Str)
    (expFeature expVersion : Str) : Except Err Unit :=
  match parseIncludes (splitlines content) with
  | .error e => .error e
  | .ok entries => resolveIncludesList fs entryPath.dropLast expFeature expVersion entries

/-! ## Package Checker -/

/-- `validate_entry_file` (lines 88-98). -/
def validate_entry_file (content : Str) (entryPath : List Str)
    (expFeature expVersion : Str) : Except Err Unit :=
  match validate_source_file content entryPath (pkgRootOf expFeature)
      (some expFeature) (some expVersion) with
  | .error e => .error e
  | .ok (feature, facet, _) =>
    if feature != expFeature then .error (.pkgFeatureMismatch feature expFeature)
    else if facet != strL ("intent") then .error (.entryFacet facet)
    else .ok ()

/-- The per-source loop of `validate_index_and_packages` (lines 222-240):
validate each file, record its identity in `seen` (an association list
modelling `seen_identities`), fail on a repeated identity naming both
package-relative paths, and collect the `intent`-facet files. -/
def scanSources (name version : Str) (pkgRoot : List Str) :
    List (List Str × Str) → List ((Str × Str) × List Str) → List (List Str) →
    Except Err (List (List Str))
  | [], _, intents => .ok intents.reverse
  | e :: rest, seen, intents =>
    match validate_source_file e.2 e.1 pkgRoot (some name) (some version) with
    | .error err => .error err
    | .ok (feature, facet, _) =>
      match seen.lookup (feature, facet) with
      | some p0 =>
        .error (.duplicateIdentity feature facet
          (p0.drop pkgRoot.length) (e.1.drop pkgRoot.length))
      | none =>
        scanSources name version pkgRoot rest (((feature, facet), e.1) :: seen)
          (if facet == strL ("intent") then e.1 :: intents else intents)

/-- `rglob("*.intent")` over one package directory, in `sorted` order:
files strictly under `registry/packages/<name>` whose final component ends
in `.intent`, ordered by their textual path. -/
def sourcesUnder (fs : FS) (name : Str) : List (List Str × Str) :=
  sortByLe (fun a b => lexLe (joinSlash a.1) (joinSlash b.1))
    (fs.files.filter (fun e =>
      (pkgRootOf name).isPrefixOf e.1 &&
        intentExt.isSuffixOf (((e.1.getLast?).getD []))))

/-! ## Registry Cross-Checker -/

/-- JSON values, as far as the index schema checks inspect them. -/
inductive J where
  | str (s : Str)
  | num (n : Int)
  | bool (b : Bool)
  | null
  | arr (l : List J)
  | obj (kvs : List (Str × J))

/-- Key lookup in a JSON object (the validated indexes have unique keys,
matching Python's dict). -/
def jGet (kvs : List (Str × J)) (k : Str) : Option J :=
  (kvs.find? (fun e => e.1 == k)).map (fun e => e.2)

/-- Whether a JSON value is an object. -/
def jIsObj : J → Bool
  | .obj _ => true
  | _ => false

/-- The per-index-entry body of `validate_index_and_packages`
(lines 196-247): schema checks on the package descriptor, entry existence
and prefix checks, entry-file/includes validation, the recursive source
scan with duplicate-identity detection, and the exactly-one-`intent`
check.  Returns the validated package name. -/
def validatePkg (fs : FS) (idx : Nat) (indexedSoFar : List Str) (pkg : J) :
    Except Err Str :=
  match pkg with
  | .obj kvs =>
    if (jGet kvs (strL ("name"))).isNone then .error (.pkgMissingKey idx (strL ("name")))
    else if (jGet kvs (strL ("version"))).isNone then .error (.pkgMissingKey idx (strL ("version")))
    else if (jGet kvs (strL ("entry"))).isNone then .error (.pkgMissingKey idx (strL ("entry")))
    else
      match jGet kvs (strL ("name")) with
      | some (.str name) =>
        if !featureOk name then .error .invalidPackageName
        else if indexedSoFar.contains name then .error (.duplicatePackageName name)
        else
          match jGet kvs (strL ("version")) with
          | some (.str version) =>
            if !versionOk version then .error (.invalidPackageVersion name)
            else
              match jGet kvs (strL ("entry")) with
              | some (.str entry) =>
                if !(intentExt.isSuffixOf entry) then .error (.entryNotIntentPath name)
                else
                  let entryParts := pathParts entry
                  match fsLookup fs entryParts with
                  | none => .error (.entryDoesNotExist name entry)
                  | some content =>
                    if !((strL ("registry/packages/") ++ name ++ ['/']).isPrefixOf entry) then
                      .error (.entryBadPrefix name entry)
                    else
                      match validate_entry_file content entryParts name version with
                      | .error e => .error e
                      | .ok () =>
                        match validate_includes fs entryParts content name version with
                        | .error e => .error e
                        | .ok () =>
                          match scanSources name version (pkgRootOf name)
                              (sourcesUnder fs name) [] [] with
                          | .error e => .error e
                          | .ok intents =>
                            match intents with
                            | [single] =>
                              if single != entryParts then .error .entryNotIntentFile
                              else .ok name
                            | _ => .error (.intentCountNotOne intents.length)
              | _ => .error (.entryNotIntentPath name)
          | _ => .error (.invalidPackageVersion name)
      | _ => .error .invalidPackageName
  | _ => .error (.pkgNotObject idx)

/-- The `for idx, pkg in enumerate(index["packages"], start=1)` loop,
accumulating the indexed names in order. -/
def goPkgs (fs : FS) : List J → Nat → List Str → Except Err (List Str)
  | [], _, acc => .ok acc
  | p :: rest, idx, acc =>
    match validatePkg fs idx acc p with
    | .error e => .error e
    | .ok name => goPkgs fs rest (idx + 1) (acc ++ [name])

/-- Set equality of two name lists (Python's `set` comparison; the compared
lists are duplicate-free: directory names are unique and duplicate index
names were rejected). -/
def sameNameSet (a b : List Str) : Bool :=
  a.all (fun x => b.contains x) && b.all (fun x => a.contains x)

/-- `validate_index_and_packages` (lines 175-258) from the point where the
index document has been loaded: schema-check the root object, run the
per-package loop, then reconcile indexed names against on-disk package
directory names.  Returns the number of index entries on success. -/
def validateIndexAndPackages (index : J) (fs : FS) : Except Err Nat :=
  match index with
  | .obj kvs =>
    if (jGet kvs (strL ("version"))).isNone then
      .error (.indexMissingKey (strL ("version")))
    else if (jGet kvs (strL ("packages"))).isNone then
      .error (.indexMissingKey (strL ("packages")))
    else
      match jGet kvs (strL ("packages")) with
      | some (.arr pkgs) =>
        if pkgs.isEmpty then .error .packagesNotNonemptyArray
        else
          match goPkgs fs pkgs 1 [] with
          | .error e => .error e
          | .ok indexedNames =>
            if sameNameSet indexedNames fs.pkgDirs then .ok pkgs.length
            else
              .error (.packageIndexMismatch
                (sortByLe lexLe (fs.pkgDirs.filter (fun n => !indexedNames.contains n)))
                (sortByLe lexLe (indexedNames.filter (fun n => !fs.pkgDirs.contains n))))
      | some _ => .error .packagesNotNonemptyArray
      | none => .error (.indexMissingKey (strL ("packages")))
  | _ => .error .indexRootNotObject

/-! ## Supporting lemmas -/

theorem splitOnC_ne_nil (sep : Char) (l : Str) : splitOnC sep l ≠ [] := by
  cases l with
  | nil => simp [splitOnC]
  | cons ch rest =>
    simp only [splitOnC]
    cases splitOnC sep rest with
    | nil => simp
    | cons h t =>
      by_cases hc : ch == sep <;> simp [hc]

theorem joinDots_splitOnC (l : Str) : joinDots (splitOnC '.' l) = l := by
  induction l with
  | nil => rfl
  | cons ch rest ih =>
    simp only [splitOnC]
    cases hs : splitOnC '.' rest with
    | nil => exact absurd hs (splitOnC_ne_nil _ _)
    | cons hd tl =>
      rw [hs] at ih
      by_cases hc : ch = '.'
      · subst hc
        simp only [beq_self_eq_true, if_pos]
        simpa [joinDots] using ih
      · have hb : (ch == '.') = false := beq_eq_false_iff_ne.mpr hc
        simp only [hb, Bool.false_eq_true, if_neg, not_false_iff]
        cases tl with
        | nil => simpa [joinDots] using ih
        | cons x xs => simpa [joinDots] using ih

theorem splitOnC_append (sep : Char) (a b : Str) :
    splitOnC sep (a ++ sep :: b) = splitOnC sep a ++ splitOnC sep b := by
  induction a with
  | nil =>
    simp only [List.nil_append, splitOnC]
    cases hs : splitOnC sep b with
    | nil => exact absurd hs (splitOnC_ne_nil _ _)
    | cons h t => simp
  | cons ch rest ih =>
    simp only [List.cons_append, splitOnC, List.append_eq]
    rw [ih]
    cases hr : splitOnC sep rest with
    | nil => exact absurd hr (splitOnC_ne_nil _ _)
    | cons h t =>
      by_cases hc : ch == sep <;> simp [hc]

theorem splitOnC_of_not_mem (sep : Char) (a : Str) (h : ∀ ch ∈ a, ch ≠ sep) :
    splitOnC sep a = [a] := by
  induction a with
  | nil => rfl
  | cons ch rest ih =>
    have hch : (ch == sep) = false :=
      beq_eq_false_iff_ne.mpr (h ch (List.mem_cons_self _ _))
    have ihr := ih (fun x hx => h x (List.mem_cons_of_mem _ hx))
    simp [splitOnC, ihr, hch]

theorem splitOnC_cons_of_not_mem (sep : Char) (a b : Str) (h : ∀ ch ∈ a, ch ≠ sep) :
    splitOnC sep (a ++ sep :: b) = a :: splitOnC sep b := by
  rw [splitOnC_append, splitOnC_of_not_mem sep a h]
  rfl

theorem ws_chars {ch : Char} (h : isWS ch = true) :
    ch = ' ' ∨ ch = '\t' ∨ ch = '\n' ∨ ch = '\r' ∨ ch = '\x0b' ∨ ch = '\x0c' := by
  simp only [isWS, Bool.or_eq_true, beq_iff_eq] at h
  tauto

theorem isLowerAlnum_not_ws {ch : Char} (h : isLowerAlnum ch = true) : isWS ch = false := by
  cases hws : isWS ch with
  | false => rfl
  | true =>
    exfalso
    rcases ws_chars hws with rfl | rfl | rfl | rfl | rfl | rfl <;> exact absurd h (by decide)

theorem isDigitC_not_ws {ch : Char} (h : isDigitC ch = true) : isWS ch = false := by
  cases hws : isWS ch with
  | false => rfl
  | true =>
    exfalso
    rcases ws_chars hws with rfl | rfl | rfl | rfl | rfl | rfl <;> exact absurd h (by decide)

theorem featureOkAux_mem :
    ∀ (l : Str) (st : Bool), featureOkAux st l = true →
      ∀ ch ∈ l, isLowerAlnum ch = true ∨ ch = '.' := by
  intro l
  induction l with
  | nil => intro st _ ch hch; cases hch
  | cons c rest ih =>
    intro st h ch hch
    simp only [featureOkAux] at h
    by_cases hla : isLowerAlnum c = true
    · rw [if_pos hla] at h
      rcases List.mem_cons.mp hch with rfl | hm
      · exact Or.inl hla
      · exact ih true h ch hm
    · rw [if_neg hla] at h
      by_cases hdot : (c == '.') = true
      · rw [if_pos hdot] at h
        have hdot' : c = '.' := beq_iff_eq.mp hdot
        rcases List.mem_cons.mp hch with rfl | hm
        · exact Or.inr hdot'
        · exact ih false (Bool.and_elim_right h) ch hm
      · rw [if_neg hdot] at h
        cases h

theorem contains_iff_memL {α : Type} [BEq α] [LawfulBEq α] (l : List α) (x : α) :
    l.contains x = true ↔ x ∈ l := by
  simp [List.contains, List.elem_iff]

theorem featureOk_head {f : Str} (h : featureOk f = true) :
    ∃ ch t, f = ch :: t ∧ isLowerAlnum ch = true := by
  cases f with
  | nil => exact absurd h (by decide)
  | cons ch t =>
    refine ⟨ch, t, rfl, ?_⟩
    by_contra hla
    have hla' : ¬ isLowerAlnum ch = true := hla
    simp only [featureOk, featureOkAux, if_neg hla'] at h
    by_cases hdot : (ch == '.') = true
    · rw [if_pos hdot] at h
      exact absurd h (by simp)
    · rw [if_neg hdot] at h
      cases h

theorem featureOk_mem {f : Str} (h : featureOk f = true) :
    ∀ ch ∈ f, isLowerAlnum ch = true ∨ ch = '.' :=
  featureOkAux_mem f false h

theorem versionOk_decomp {v : Str} (h : versionOk v = true) :
    ∃ a b, v = a ++ '.' :: b ∧ a ≠ [] ∧ b ≠ [] ∧
      (∀ ch ∈ a, isDigitC ch = true) ∧ (∀ ch ∈ b, isDigitC ch = true) := by
  simp only [versionOk, Bool.and_eq_true, Bool.not_eq_true'] at h
  refine ⟨v.takeWhile isDigitC, ?_⟩
  rcases h with ⟨ha, hrest⟩
  cases hr : v.dropWhile isDigitC with
  | nil => rw [hr] at hrest; cases hrest
  | cons ch b =>
    rw [hr] at hrest
    simp only [Bool.and_eq_true, beq_iff_eq, Bool.not_eq_true'] at hrest
    obtain ⟨⟨hdot, hbne⟩, hball⟩ := hrest
    subst hdot
    refine ⟨b, ?_, ?_, ?_, ?_, ?_⟩
    · rw [← hr]; exact (List.takeWhile_append_dropWhile isDigitC v).symm
    · intro hnil
      rw [hnil] at ha; exact absurd ha (by simp [List.isEmpty])
    · intro hnil; rw [hnil] at hbne; exact absurd hbne (by simp [List.isEmpty])
    · exact fun ch hch => List.mem_takeWhile_imp hch
    · intro ch hch
      exact (List.all_eq_true.mp hball) ch hch

theorem versionOk_mem {v : Str} (h : versionOk v = true) :
    ∀ ch ∈ v, isDigitC ch = true ∨ ch = '.' := by
  obtain ⟨a, b, rfl, _, _, hda, hdb⟩ := versionOk_decomp h
  intro ch hch
  rcases List.mem_append.mp hch with hm | hm
  · exact Or.inl (hda ch hm)
  · rcases List.mem_cons.mp hm with rfl | hm'
    · exact Or.inr rfl
    · exact Or.inl (hdb ch hm')

theorem versionOk_last {v : Str} (h : versionOk v = true) :
    ∃ ch, v.getLast? = some ch ∧ isDigitC ch = true := by
  obtain ⟨a, b, rfl, _, hbne, _, hdb⟩ := versionOk_decomp h
  cases b with
  | nil => exact absurd rfl hbne
  | cons x xs =>
    refine ⟨(x :: xs).getLast (by simp), ?_, ?_⟩
    · rw [List.getLast?_append_of_ne_nil a (by simp : ('.' :: x :: xs) ≠ [])]
      rw [show ('.' :: x :: xs).getLast? = (x :: xs).getLast? from rfl]
      exact List.getLast?_eq_getLast _ _
    · exact hdb _ (List.getLast_mem _)

theorem versionOk_ne_nil {v : Str} (h : versionOk v = true) : v ≠ [] := by
  obtain ⟨a, b, rfl, _, _, _, _⟩ := versionOk_decomp h
  simp

theorem splitlinesAux_append (a b acc : Str) (h : ∀ ch ∈ a, ch ≠ '\n') :
    splitlinesAux acc (a ++ '\n' :: b) =
      match b with
      | [] => [acc.reverse ++ a]
      | _ :: _ => (acc.reverse ++ a) :: splitlinesAux [] b := by
  induction a generalizing acc with
  | nil =>
    simp only [List.nil_append, splitlinesAux, beq_self_eq_true, if_pos, List.append_nil]
    cases b <;> simp
  | cons ch rest ih =>
    have hch : (ch == '\n') = false :=
      beq_eq_false_iff_ne.mpr (h ch (List.mem_cons_self _ _))
    simp only [List.cons_append, splitlinesAux, hch, Bool.false_eq_true, if_neg,
      not_false_iff, List.append_eq]
    rw [ih (ch :: acc) (fun x hx => h x (List.mem_cons_of_mem _ hx))]
    cases b <;> simp [List.reverse_cons, List.append_assoc]

theorem splitlines_first (a b : Str) (h : ∀ ch ∈ a, ch ≠ '\n') :
    ((splitlines (a ++ '\n' :: b)).head?).getD [] = a := by
  have hne : a ++ '\n' :: b ≠ [] := by
    intro hc
    exact absurd (congrArg List.length hc) (by simp)
  rw [show splitlines (a ++ '\n' :: b) = splitlinesAux [] (a ++ '\n' :: b) by
    cases hm : a ++ '\n' :: b with
    | nil => exact absurd hm hne
    | cons x xs => rw [← hm]; simp only [splitlines, hm]]
  rw [splitlinesAux_append a b [] h]
  cases b <;> simp

theorem stripWS_eq_self (l : Str)
    (hh : ∀ first, l.head? = some first → isWS first = false)
    (hl : ∀ last, l.getLast? = some last → isWS last = false) :
    stripWS l = l := by
  cases l with
  | nil => rfl
  | cons a t =>
    have ha : isWS a = false := hh a rfl
    have hd1 : (a :: t).dropWhile isWS = a :: t := by
      rw [List.dropWhile_cons, if_neg (by simp [ha])]
    rw [stripWS, hd1]
    cases hr : (a :: t).reverse with
    | nil => exact absurd (congrArg List.length hr) (by simp)
    | cons x xs =>
      have hx : (a :: t).getLast? = some x := by
        rw [← List.head?_reverse, hr]; rfl
      have hwx : isWS x = false := hl x hx
      have hxs : List.dropWhile isWS (x :: xs) = x :: xs := by
        simp [List.dropWhile_cons, hwx]
      rw [hxs, ← hr, List.reverse_reverse]

theorem extRun_append_intent (pre : Str) :
    extRun (pre ++ intentExt) = strL ("tnetni") := by
  unfold extRun
  rw [List.reverse_append, show intentExt.reverse = strL ("tnetni.") from rfl]
  simp [strL, List.takeWhile_cons, List.cons_append]

theorem pathSplitExt_append_intent (pre : Str) (hpre : pre ≠ []) :
    pathSplitExt (pre ++ intentExt) = (pre, intentExt) := by
  have hpl : 0 < pre.length := List.length_pos.mpr hpre
  have hlen : (pre ++ intentExt).length = pre.length + 7 := by
    rw [List.length_append]; rfl
  have hdot : dotIdx (pre ++ intentExt) = pre.length := by
    unfold dotIdx
    rw [extRun_append_intent, hlen]
    show pre.length + 7 - 1 - 6 = pre.length
    omega
  unfold pathSplitExt
  rw [extRun_append_intent, hdot, hlen]
  have h1 : ((strL ("tnetni")).length == pre.length + 7) = false := by
    refine beq_eq_false_iff_ne.mpr ?_
    show 6 ≠ pre.length + 7
    omega
  rw [h1]
  have h2 : (decide (0 < pre.length) && decide (pre.length < pre.length + 7 - 1)) = true := by
    simp only [Bool.and_eq_true, decide_eq_true_eq]
    omega
  simp only [Bool.false_eq_true, if_false, h2, if_true]
  rw [List.take_left, List.drop_left]

theorem pathSplitExt_recover (name : Str) :
    (pathSplitExt name).1 ++ (pathSplitExt name).2 = name := by
  unfold pathSplitExt
  split
  · simp
  · split
    · exact List.take_append_drop _ name
    · simp

theorem pathSplitExt_intent_shape {name : Str}
    (h : (pathSplitExt name).2 = intentExt) :
    name = (pathSplitExt name).1 ++ intentExt ∧
      (pathSplitExt name).1 = name.take (name.length - 7) := by
  obtain ⟨s, hs⟩ : ∃ s, (pathSplitExt name).1 = s := ⟨_, rfl⟩
  have hr := pathSplitExt_recover name
  rw [h, hs] at hr
  rw [hs]
  refine ⟨hr.symm, ?_⟩
  rw [← hr, List.length_append, show intentExt.length = 7 from rfl]
  have h7 : s.length + 7 - 7 = s.length := by omega
  rw [h7, List.take_left]

/-- The eight possible values of a string passing the facet membership
test. -/
theorem facet_cases {c : Str} (h : FACETSl.contains c = true) :
    c = strL ("intent") ∨ c = strL ("schema") ∨ c = strL ("flow") ∨
    c = strL ("contract") ∨ c = strL ("persona") ∨ c = strL ("view") ∨
    c = strL ("event") ∨ c = strL ("mapping") := by
  rw [contains_iff_memL] at h
  simpa [FACETSl] using h

/-- The header line a source file declares for identity `(f, c)` at
version `v`, as the spec's round-trip property constructs it. -/
def headerLineOf (f c v : Str) : Str :=
  strL ("AIM: ") ++ f ++ '#' :: (c ++ '@' :: v)

theorem headerMatch_build (f c v : Str) (hf : featureOk f = true)
    (hc : FACETSl.contains c = true) (hv : versionOk v = true) :
    headerMatch (headerLineOf f c v) = some (f, c, v) := by
  obtain ⟨fh, ft, hfeq, hfh⟩ := featureOk_head hf
  have hfhw : isWS fh = false := isLowerAlnum_not_ws hfh
  have hcs := facet_cases hc
  have hcat : ∀ ch ∈ c, ch ≠ '@' := by
    rcases hcs with rfl | rfl | rfl | rfl | rfl | rfl | rfl | rfl <;> decide
  have hcpound : ∀ ch ∈ c, ch ≠ '#' := by
    rcases hcs with rfl | rfl | rfl | rfl | rfl | rfl | rfl | rfl <;> decide
  have hfpound : ∀ ch ∈ f, ch ≠ '#' := by
    intro ch hch he
    subst he
    rcases featureOk_mem hf _ hch with h | h
    · exact absurd h (by decide)
    · exact absurd h (by decide)
  have hvpound : ∀ ch ∈ v, ch ≠ '#' := by
    intro ch hch he
    subst he
    rcases versionOk_mem hv _ hch with h | h
    · exact absurd h (by decide)
    · exact absurd h (by decide)
  have hvat : ∀ ch ∈ v, ch ≠ '@' := by
    intro ch hch he
    subst he
    rcases versionOk_mem hv _ hch with h | h
    · exact absurd h (by decide)
    · exact absurd h (by decide)
  have hmid : ∀ ch ∈ (c ++ '@' :: v), ch ≠ '#' := by
    intro ch hch
    rcases List.mem_append.mp hch with hm | hm
    · exact hcpound ch hm
    · rcases List.mem_cons.mp hm with rfl | hm'
      · decide
      · exact hvpound ch hm'
  have hsplit1 : splitOnC '#' (f ++ '#' :: (c ++ '@' :: v)) =
      f :: splitOnC '#' (c ++ '@' :: v) :=
    splitOnC_cons_of_not_mem '#' f _ hfpound
  have hsplit2 : splitOnC '#' (c ++ '@' :: v) = [c ++ '@' :: v] :=
    splitOnC_of_not_mem _ _ hmid
  have hsplit3 : splitOnC '@' (c ++ '@' :: v) = [c, v] := by
    rw [splitOnC_cons_of_not_mem '@' c v hcat, splitOnC_of_not_mem '@' v hvat]
  have hpre : (strL ("AIM:")).isPrefixOf (headerLineOf f c v) = true := by
    rw [headerLineOf, show strL ("AIM: ") = 'A' :: 'I' :: 'M' :: ':' :: ' ' :: [] from rfl]
    simp [List.isPrefixOf, strL, List.cons_append]
  rw [headerMatch, if_pos hpre]
  have hdrop : (headerLineOf f c v).drop 4 = ' ' :: (f ++ '#' :: (c ++ '@' :: v)) := by
    rw [headerLineOf, show strL ("AIM: ") = 'A' :: 'I' :: 'M' :: ':' :: ' ' :: [] from rfl]
    simp [List.cons_append]
  rw [hdrop]
  have hsp : isWS ' ' = true := by decide
  have htake : (' ' :: (f ++ '#' :: (c ++ '@' :: v))).takeWhile isWS = [' '] := by
    rw [hfeq]
    simp [List.takeWhile_cons, List.cons_append, hfhw, hsp]
  have hdropw : (' ' :: (f ++ '#' :: (c ++ '@' :: v))).dropWhile isWS =
      f ++ '#' :: (c ++ '@' :: v) := by
    rw [hfeq]
    simp [List.dropWhile_cons, List.cons_append, hfhw, hsp]
  rw [htake]
  rw [if_neg (by simp : ¬((([' '] : Str)).isEmpty = true))]
  rw [hdropw, hsplit1, hsplit2]
  simp only [hsplit3, hf, hc, hv, Bool.and_self, if_true]

theorem facet_no_dot {c : Str} (hc : FACETSl.contains c = true) :
    (∀ ch ∈ c, ch ≠ '.') ∧ c ≠ [] := by
  rcases facet_cases hc with rfl | rfl | rfl | rfl | rfl | rfl | rfl | rfl <;>
    exact ⟨by decide, by decide⟩

/-- The flat layout of identity `(f, c)`: the single file name
`<f>.<c>.intent`. -/
def flatNameOf (f c : Str) : Str := f ++ '.' :: (c ++ intentExt)

theorem derive_flatName (f c : Str) (hf : featureOk f = true)
    (hc : FACETSl.contains c = true) :
    derive [flatNameOf f c] = .ok (f, c) := by
  obtain ⟨hcdot, hcne⟩ := facet_no_dot hc
  have hpre_ne : f ++ '.' :: c ≠ [] := by simp
  have hshape : flatNameOf f c = (f ++ '.' :: c) ++ intentExt := by
    rw [flatNameOf, List.append_assoc, List.cons_append]
  have hsplit : pathSplitExt (flatNameOf f c) = (f ++ '.' :: c, intentExt) := by
    rw [hshape]
    exact pathSplitExt_append_intent _ hpre_ne
  have hstem : stemOf (flatNameOf f c) = f ++ '.' :: c := by
    have hshp := (@pathSplitExt_intent_shape (flatNameOf f c) (by rw [hsplit])).2
    rw [hsplit] at hshp
    rw [stemOf, ← hshp]
  have hparts : stemPartsOf (flatNameOf f c) = splitOnC '.' f ++ [c] := by
    rw [stemPartsOf, hstem, splitOnC_append, splitOnC_of_not_mem '.' c hcdot]
  have hlast : lastSegOf (flatNameOf f c) = c := by
    rw [lastSegOf, hparts, List.getLast?_concat]
    rfl
  have hlen2 : ¬((stemPartsOf (flatNameOf f c)).length < 2) := by
    rw [hparts, List.length_append]
    have hpos : 0 < (splitOnC '.' f).length :=
      List.length_pos.mpr (splitOnC_ne_nil '.' f)
    simp only [List.length_singleton]
    omega
  have hdrop : (stemPartsOf (flatNameOf f c)).dropLast = splitOnC '.' f := by
    rw [hparts, List.dropLast_concat]
  have hname : ((([flatNameOf f c] : List Str).getLast?).getD []) = flatNameOf f c := rfl
  rw [derive, hname, hsplit]
  simp only [beq_self_eq_true, if_pos, List.length_singleton]
  rw [deriveFlat, hlast, if_pos hc, if_neg hlen2]
  rw [hdrop, joinDots_splitOnC, deriveFinish, if_pos hf, if_pos hc]

theorem derive_nested (f c : Str) (hf : featureOk f = true)
    (hc : FACETSl.contains c = true) :
    derive [f, c ++ intentExt] = .ok (f, c) := by
  obtain ⟨hcdot, hcne⟩ := facet_no_dot hc
  have hsplit : pathSplitExt (c ++ intentExt) = (c, intentExt) :=
    pathSplitExt_append_intent c hcne
  have hname : ((([f, c ++ intentExt] : List Str).getLast?).getD []) = c ++ intentExt := rfl
  rw [derive, hname, hsplit]
  simp only [beq_self_eq_true, if_pos]
  rw [show (([f, c ++ intentExt] : List Str).length == 1) = false from rfl]
  simp only [Bool.false_eq_true, if_false]
  rw [show (([f, c ++ intentExt] : List Str).dropLast) = [f] from rfl]
  rw [show joinDots [f] = f from rfl]
  rw [deriveFinish, if_pos hf, if_pos hc]

theorem relTo_append (root rel : List Str) : relTo (root ++ rel) root = some rel := by
  rw [relTo, if_pos, List.drop_left]
  exact List.isPrefixOf_iff_prefix.mpr (List.prefix_append root rel)

/-- A source file's content under the round-trip construction: the header
line declaring `(f, c, v)`, a newline, and an arbitrary remainder. -/
def contentOf (f c v rest : Str) : Str := headerLineOf f c v ++ '\n' :: rest

theorem headerLineOf_no_newline {f c v : Str} (hf : featureOk f = true)
    (hc : FACETSl.contains c = true) (hv : versionOk v = true) :
    ∀ ch ∈ headerLineOf f c v, ch ≠ '\n' := by
  intro ch hch he
  subst he
  rw [headerLineOf] at hch
  rcases List.mem_append.mp hch with hm | hm
  · rcases List.mem_append.mp hm with hm2 | hm2
    · revert hm2; decide
    · rcases featureOk_mem hf _ hm2 with h | h
      · exact absurd h (by decide)
      · exact absurd h (by decide)
  · rcases List.mem_cons.mp hm with h4 | hm2
    · exact absurd h4 (by decide)
    · rcases List.mem_append.mp hm2 with hm3 | hm3
      · rcases facet_cases hc with rfl | rfl | rfl | rfl | rfl | rfl | rfl | rfl <;>
          revert hm3 <;> decide
      · rcases List.mem_cons.mp hm3 with h4 | hm4
        · exact absurd h4 (by decide)
        · rcases versionOk_mem hv _ hm4 with h | h
          · exact absurd h (by decide)
          · exact absurd h (by decide)

theorem stripWS_headerLineOf {f c v : Str} (hv : versionOk v = true) :
    stripWS (headerLineOf f c v) = headerLineOf f c v := by
  apply stripWS_eq_self
  · intro first hfi
    have hh : (headerLineOf f c v).head? = some 'A' := rfl
    rw [hh] at hfi
    cases hfi
    decide
  · intro last hla
    obtain ⟨dch, hd1, hd2⟩ := versionOk_last hv
    have hvne : v ≠ [] := versionOk_ne_nil hv
    have hassoc : headerLineOf f c v = (strL ("AIM: ") ++ f ++ '#' :: (c ++ ['@'])) ++ v := by
      simp [headerLineOf, List.append_assoc, List.cons_append]
    rw [hassoc, List.getLast?_append_of_ne_nil _ hvne, hd1] at hla
    cases hla
    exact isDigitC_not_ws hd2

theorem parse_header_build (f c v rest : Str) (hf : featureOk f = true)
    (hc : FACETSl.contains c = true) (hv : versionOk v = true)
    (hleg : LEGACYl.all (fun t => !(isInfixB t (contentOf f c v rest))) = true) :
    parse_header (contentOf f c v rest) = .ok (f, c, v) := by
  have hfind : LEGACYl.find? (fun t => isInfixB t (contentOf f c v rest)) = none := by
    rw [List.find?_eq_none]
    intro x hx
    have := (List.all_eq_true.mp hleg) x hx
    simpa using this
  have hfirst : (((splitlines (contentOf f c v rest)).head?).getD []) = headerLineOf f c v :=
    splitlines_first _ _ (headerLineOf_no_newline hf hc hv)
  rw [parse_header, hfind]
  show headerStage (contentOf f c v rest) = .ok (f, c, v)
  rw [headerStage, hfirst, stripWS_headerLineOf hv, headerMatch_build f c v hf hc hv]

theorem roundtrip_flat (f c v rest : Str) (root : List Str) (hf : featureOk f = true)
    (hc : FACETSl.contains c = true) (hv : versionOk v = true)
    (hleg : LEGACYl.all (fun t => !(isInfixB t (contentOf f c v rest))) = true) :
    validate_source_file (contentOf f c v rest) (root ++ [flatNameOf f c]) root
      (some f) (some v) = .ok (f, c, v) := by
  rw [validate_source_file, parse_header_build f c v rest hf hc hv hleg]
  show vsfAfterHeader f c v (root ++ [flatNameOf f c]) root (some f) (some v) = .ok (f, c, v)
  rw [vsfAfterHeader, relTo_append]
  show (match derive [flatNameOf f c] with
        | Except.error e => Except.error e
        | Except.ok (pathFeature, pathFacet) =>
          vsfChecks f c v pathFeature pathFacet (some f) (some v)) = Except.ok (f, c, v)
  rw [derive_flatName f c hf hc]
  show vsfChecks f c v f c (some f) (some v) = .ok (f, c, v)
  simp [vsfChecks, bne_self_eq_false]

theorem roundtrip_nested (f c v rest : Str) (root : List Str) (hf : featureOk f = true)
    (hc : FACETSl.contains c = true) (hv : versionOk v = true)
    (hleg : LEGACYl.all (fun t => !(isInfixB t (contentOf f c v rest))) = true) :
    validate_source_file (contentOf f c v rest) (root ++ [f, c ++ intentExt]) root
      (some f) (some v) = .ok (f, c, v) := by
  rw [validate_source_file, parse_header_build f c v rest hf hc hv hleg]
  show vsfAfterHeader f c v (root ++ [f, c ++ intentExt]) root (some f) (some v) = .ok (f, c, v)
  rw [vsfAfterHeader, relTo_append]
  show (match derive [f, c ++ intentExt] with
        | Except.error e => Except.error e
        | Except.ok (pathFeature, pathFacet) =>
          vsfChecks f c v pathFeature pathFacet (some f) (some v)) = Except.ok (f, c, v)
  rw [derive_nested f c hf hc]
  show vsfChecks f c v f c (some f) (some v) = .ok (f, c, v)
  simp [vsfChecks, bne_self_eq_false]

theorem deriveFinish_ok {a b f c : Str} (h : deriveFinish a b = .ok (f, c)) :
    f = a ∧ c = b ∧ featureOk a = true ∧ FACETSl.contains b = true := by
  rw [deriveFinish] at h
  by_cases h1 : featureOk a = true
  · rw [if_pos h1] at h
    by_cases h2 : FACETSl.contains b = true
    · rw [if_pos h2] at h
      simp only [Except.ok.injEq, Prod.mk.injEq] at h
      exact ⟨h.1.symm, h.2.symm, h1, h2⟩
    · rw [if_neg h2] at h; cases h
  · rw [if_neg h1] at h; cases h

theorem derive_ok_elim {rel : List Str} {f c : Str} (h : derive rel = .ok (f, c)) :
    featureOk f = true ∧ FACETSl.contains c = true ∧
    (¬ rel.length = 1 →
      f = joinDots rel.dropLast ∧
      c = (pathSplitExt ((rel.getLast?).getD [])).1) ∧
    (rel.length = 1 →
      (FACETSl.contains (lastSegOf ((rel.getLast?).getD [])) = true →
        f = joinDots (stemPartsOf ((rel.getLast?).getD [])).dropLast ∧
        c = lastSegOf ((rel.getLast?).getD [])) ∧
      (FACETSl.contains (lastSegOf ((rel.getLast?).getD [])) = false →
        f = joinDots (stemPartsOf ((rel.getLast?).getD [])) ∧
        c = strL ("intent"))) := by
  rw [derive] at h
  by_cases h1 : ((pathSplitExt ((rel.getLast?).getD [])).2 == intentExt) = true
  · rw [if_pos h1] at h
    by_cases h2 : (rel.length == 1) = true
    · rw [if_pos h2] at h
      have hlen1 : rel.length = 1 := by simpa using h2
      rw [deriveFlat] at h
      by_cases h3 : FACETSl.contains (lastSegOf ((rel.getLast?).getD [])) = true
      · rw [if_pos h3] at h
        by_cases h4 : (stemPartsOf ((rel.getLast?).getD [])).length < 2
        · rw [if_pos h4] at h; cases h
        · rw [if_neg h4] at h
          obtain ⟨hf, hc, hfo, hco⟩ := deriveFinish_ok h
          subst hf; subst hc
          refine ⟨hfo, hco, fun hne => absurd hlen1 hne, fun _ => ⟨fun _ => ⟨rfl, rfl⟩, fun hfalse => ?_⟩⟩
          rw [h3] at hfalse
          cases hfalse
      · rw [if_neg h3] at h
        obtain ⟨hf, hc, hfo, hco⟩ := deriveFinish_ok h
        subst hf; subst hc
        have h3' : FACETSl.contains (lastSegOf ((rel.getLast?).getD [])) = false :=
          Bool.not_eq_true _ ▸ (Bool.of_not_eq_true h3)
        refine ⟨hfo, hco, fun hne => absurd hlen1 hne, fun _ => ⟨fun htrue => ?_, fun _ => ⟨rfl, rfl⟩⟩⟩
        rw [h3'] at htrue
        cases htrue
    · rw [if_neg h2] at h
      obtain ⟨hf, hc, hfo, hco⟩ := deriveFinish_ok h
      subst hf; subst hc
      refine ⟨hfo, hco, fun _ => ⟨rfl, rfl⟩, fun hlen => ?_⟩
      exact absurd (by simpa using hlen : (rel.length == 1) = true) h2
  · rw [if_neg h1] at h; cases h

/-! ## Claim theorems -/

/-- C10: the Header Parser is total on arbitrary content; on empty content
(the only zero-line content, since `splitlines` yields no lines exactly
there) the first line is taken to be the empty string and the parser fails
with the header-grammar error instead of an out-of-bounds access. -/
theorem C10_header_total_on_empty :
    parse_header [] = .error .headerGrammar ∧ splitlines [] = [] := by
  exact ⟨rfl, rfl⟩

/-- C4: any file content containing a legacy metadata token anywhere fails
`parse_header` with a `legacyToken` error naming an offending token that is
present, regardless of what the first line is — the legacy scan runs before
header-grammar matching. -/
theorem C4_legacy_precedence (content : Str)
    (h : (LEGACYl.any (fun t => isInfixB t content)) = true) :
    ∃ t, t ∈ LEGACYl ∧ isInfixB t content = true ∧
      parse_header content = .error (.legacyToken t) := by
  obtain ⟨t, ht⟩ : ∃ t, LEGACYl.find? (fun t => isInfixB t content) = some t := by
    have hex : ∃ x ∈ LEGACYl, isInfixB x content = true := List.any_eq_true.mp h
    cases hfind : LEGACYl.find? (fun t => isInfixB t content) with
    | some t => exact ⟨t, rfl⟩
    | none =>
      rw [List.find?_eq_none] at hfind
      obtain ⟨x, hx1, hx2⟩ := hex
      exact absurd hx2 (by simpa using hfind x hx1)
  refine ⟨t, List.mem_of_find?_eq_some ht, ?_, ?_⟩
  · have hp := List.find?_some ht
    simpa using hp
  · rw [parse_header, ht]

/-- C4 witness: a file whose first line is a perfectly valid header but
which contains `VERSION:` later fails with the legacy-token error, and so
does a file with an invalid first line containing `:::AIM_METADATA`. -/
theorem C4_witness :
    (∃ t, t ∈ LEGACYl ∧
      isInfixB t (strL ("AIM: weather#schema@1.0\nVERSION: 2")) = true ∧
      parse_header (strL ("AIM: weather#schema@1.0\nVERSION: 2")) =
        .error (.legacyToken t)) ∧
    (∃ t, t ∈ LEGACYl ∧
      isInfixB t (strL ("garbage\n:::AIM_METADATA")) = true ∧
      parse_header (strL ("garbage\n:::AIM_METADATA")) =
        .error (.legacyToken t)) :=
  ⟨C4_legacy_precedence _ (by decide), C4_legacy_precedence _ (by decide)⟩

/-- C2: the Identity Deriver's dual-mode rule.  Whenever it succeeds on a
relative path: with more than one component the feature is the directory
components joined by dots and the facet is the file stem; with a single
component, if the stem's last dot-segment is a recognized facet it becomes
the facet and the remaining segments joined by dots the feature, and
otherwise the whole stem is the feature with facet `intent`.  The four
spec examples evaluate accordingly. -/
theorem C2_identity_deriver :
    (∀ (rel : List Str) (f c : Str), derive rel = .ok (f, c) →
      (1 < rel.length →
        f = joinDots rel.dropLast ∧
        c = (pathSplitExt ((rel.getLast?).getD [])).1) ∧
      (rel.length = 1 →
        (FACETSl.contains (lastSegOf ((rel.getLast?).getD [])) = true →
          f = joinDots (stemPartsOf ((rel.getLast?).getD [])).dropLast ∧
          c = lastSegOf ((rel.getLast?).getD [])) ∧
        (FACETSl.contains (lastSegOf ((rel.getLast?).getD [])) = false →
          f = stemOf ((rel.getLast?).getD []) ∧ c = strL ("intent")))) ∧
    derive [strL ("weather.schema.intent")] = .ok (strL ("weather"), strL ("schema")) ∧
    derive [strL ("weather.intent")] = .ok (strL ("weather"), strL ("intent")) ∧
    derive [strL ("my.module.intent")] = .ok (strL ("my.module"), strL ("intent")) ∧
    derive [strL ("sub.feature"), strL ("contract.intent")] =
      .ok (strL ("sub.feature"), strL ("contract")) := by
  refine ⟨?_, by decide, by decide, by decide, by decide⟩
  intro rel f c h
  obtain ⟨hfo, hco, hmulti, hflat⟩ := derive_ok_elim h
  constructor
  · intro hlt
    exact hmulti (by omega)
  · intro hone
    obtain ⟨ht, hf⟩ := hflat hone
    refine ⟨ht, fun hfalse => ?_⟩
    obtain ⟨h1, h2⟩ := hf hfalse
    rw [stemPartsOf] at h1
    rw [h1, joinDots_splitOnC]
    exact ⟨rfl, h2⟩

/-- C2 witness: the general rule applied at the flat example
`weather.schema.intent`. -/
theorem C2_witness :
    (1 < ([strL ("weather.schema.intent")] : List Str).length →
      strL ("weather") = joinDots ([strL ("weather.schema.intent")] : List Str).dropLast ∧
      strL ("schema") =
        (pathSplitExt ((([strL ("weather.schema.intent")] : List Str).getLast?).getD [])).1) ∧
    (([strL ("weather.schema.intent")] : List Str).length = 1 →
      (FACETSl.contains
          (lastSegOf ((([strL ("weather.schema.intent")] : List Str).getLast?).getD [])) = true →
        strL ("weather") =
          joinDots (stemPartsOf
            ((([strL ("weather.schema.intent")] : List Str).getLast?).getD [])).dropLast ∧
        strL ("schema") =
          lastSegOf ((([strL ("weather.schema.intent")] : List Str).getLast?).getD [])) ∧
      (FACETSl.contains
          (lastSegOf ((([strL ("weather.schema.intent")] : List Str).getLast?).getD [])) = false →
        strL ("weather") =
          stemOf ((([strL ("weather.schema.intent")] : List Str).getLast?).getD []) ∧
        strL ("schema") = strL ("intent"))) :=
  C2_identity_deriver.1 [strL ("weather.schema.intent")]
    (strL ("weather")) (strL ("schema")) (by decide)

/-- C9: a flat path whose stem is exactly one dot-segment that is itself a
facet name fails with the flat-name `InvalidPathError` instead of deriving
an empty feature; and no successful derivation ever returns an empty
feature (the derived feature always passes the feature grammar). -/
theorem C9_no_empty_feature :
    (∀ c : Str, FACETSl.contains c = true →
      derive [c ++ intentExt] = .error (.flatNameInvalid (c ++ intentExt))) ∧
    (∀ (rel : List Str) (f c : Str), derive rel = .ok (f, c) →
      featureOk f = true ∧ f ≠ []) := by
  constructor
  · intro c hc
    rcases facet_cases hc with rfl | rfl | rfl | rfl | rfl | rfl | rfl | rfl <;> decide
  · intro rel f c h
    obtain ⟨hfo, _, _, _⟩ := derive_ok_elim h
    refine ⟨hfo, fun hnil => ?_⟩
    subst hnil
    exact absurd hfo (by decide)

/-- C9 witness: `schema.intent` and `intent.intent` fail with the
flat-name error, and the example derivation `weather.intent` has a
non-empty feature. -/
theorem C9_witness :
    derive [strL ("schema") ++ intentExt] =
      .error (.flatNameInvalid (strL ("schema") ++ intentExt)) ∧
    derive [strL ("intent") ++ intentExt] =
      .error (.flatNameInvalid (strL ("intent") ++ intentExt)) ∧
    (featureOk (strL ("weather")) = true ∧ strL ("weather") ≠ []) :=
  ⟨C9_no_empty_feature.1 (strL ("schema")) (by decide),
   C9_no_empty_feature.1 (strL ("intent")) (by decide),
   C9_no_empty_feature.2 [strL ("weather.intent")] (strL ("weather")) (strL ("intent"))
     (by decide)⟩

/-- C3 (round-trip identity): for any valid `(feature, facet)` pair and
version, a file laid out under the flat convention (`<f>.<c>.intent`) or
the nested convention (`<f>/<c>.intent`) whose first line declares exactly
that pair at that version, with no legacy token in its content, passes the
Source Validator against expected feature `f` and version `v`, returning
the validated `(f, c, v)` triple — so the header-declared and path-derived
identities agree. -/
theorem C3_roundtrip (f c v rest : Str) (root : List Str)
    (hf : featureOk f = true) (hc : FACETSl.contains c = true)
    (hv : versionOk v = true)
    (hleg : LEGACYl.all (fun t => !(isInfixB t (contentOf f c v rest))) = true) :
    validate_source_file (contentOf f c v rest) (root ++ [flatNameOf f c]) root
      (some f) (some v) = .ok (f, c, v) ∧
    validate_source_file (contentOf f c v rest) (root ++ [f, c ++ intentExt]) root
      (some f) (some v) = .ok (f, c, v) :=
  ⟨roundtrip_flat f c v rest root hf hc hv hleg,
   roundtrip_nested f c v rest root hf hc hv hleg⟩

/-- C3 witness: the round trip at `(weather, schema, 1.0)` under the
package root `registry/packages/weather`. -/
theorem C3_witness :
    validate_source_file
        (contentOf (strL ("weather")) (strL ("schema")) (strL ("1.0")) [])
        (pkgRootOf (strL ("weather")) ++ [flatNameOf (strL ("weather")) (strL ("schema"))])
        (pkgRootOf (strL ("weather")))
        (some (strL ("weather"))) (some (strL ("1.0"))) =
      .ok (strL ("weather"), strL ("schema"), strL ("1.0")) ∧
    validate_source_file
        (contentOf (strL ("weather")) (strL ("schema")) (strL ("1.0")) [])
        (pkgRootOf (strL ("weather")) ++ [strL ("weather"), strL ("schema") ++ intentExt])
        (pkgRootOf (strL ("weather")))
        (some (strL ("weather"))) (some (strL ("1.0"))) =
      .ok (strL ("weather"), strL ("schema"), strL ("1.0")) :=
  C3_roundtrip (strL ("weather")) (strL ("schema")) (strL ("1.0")) []
    (pkgRootOf (strL ("weather"))) (by decide) (by decide) (by decide) (by decide)

theorem includesEntryMatch_key {line k p : Str}
    (h : includesEntryMatch line = some (k, p)) :
    INCLUDE_KEYSl.contains k = true := by
  rw [includesEntryMatch] at h
  by_cases h1 :
      INCLUDE_KEYSl.contains ((line.dropWhile isWS).takeWhile isLowerC) = true
  · rw [if_pos h1] at h
    split at h
    next r3 heq1 =>
      split at h
      next r5 heq2 =>
        by_cases h2 : ((r5.takeWhile (fun ch => ch != '"')).isEmpty) = true
        · rw [if_pos h2] at h
          cases h
        · rw [if_neg h2] at h
          split at h
          next r7 heq3 =>
            by_cases h3 : (r7.all isWS) = true
            · rw [if_pos h3] at h
              simp only [Option.some.injEq, Prod.mk.injEq] at h
              rw [← h.1]
              exact h1
            · rw [if_neg h3] at h
              cases h
          next => cases h
      next => cases h
    next => cases h
  · rw [if_neg h1] at h
    cases h

theorem include_key_cases {k : Str} (h : INCLUDE_KEYSl.contains k = true) :
    k = strL ("schema") ∨ k = strL ("flow") ∨ k = strL ("contract") ∨
    k = strL ("persona") ∨ k = strL ("view") ∨ k = strL ("event") := by
  rw [contains_iff_memL] at h
  simpa [INCLUDE_KEYSl] using h

/-- C6 counterexample: `mapping` is one of the eight facets, yet a
well-formed `mapping: "x.intent"` line does not match the includes-entry
grammar and fails `MalformedIncludesEntryError`, refuting the claim that
every facet of the eight-member enumeration is accepted as an include
key. -/
theorem C6_counterexample :
    FACETSl.contains (strL ("mapping")) = true ∧
    includesEntryMatch (strL ("mapping: \"x.intent\"")) = none ∧
    parseIncludes
        [strL ("INCLUDES \x7b"), strL ("  mapping: \"x.intent\""), strL ("\x7d")] =
      .error (.malformedIncludesEntry (strL ("mapping: \"x.intent\""))) := by
  refine ⟨by decide, by decide, by decide⟩

/-- C6 amended: the includes-entry grammar accepts exactly the six keys
`schema, flow, contract, persona, view, event` — every accepted entry's
key is one of the six, each of the six is accepted in a well-formed entry
line, and the remaining two facets `intent` and `mapping` fail
`MalformedIncludesEntryError`. -/
theorem C6_include_keys :
    (∀ line k p, includesEntryMatch line = some (k, p) →
      INCLUDE_KEYSl.contains k = true) ∧
    (∀ k, INCLUDE_KEYSl.contains k = true →
      includesEntryMatch (k ++ strL (": \"x.intent\"")) =
        some (k, strL ("x.intent")) ∧
      parseIncludes
          [strL ("INCLUDES \x7b"), k ++ strL (": \"x.intent\""), strL ("\x7d")] =
        .ok [(k, strL ("x.intent"))]) ∧
    parseIncludes
        [strL ("INCLUDES \x7b"), strL ("intent: \"x.intent\""), strL ("\x7d")] =
      .error (.malformedIncludesEntry (strL ("intent: \"x.intent\""))) ∧
    parseIncludes
        [strL ("INCLUDES \x7b"), strL ("mapping: \"x.intent\""), strL ("\x7d")] =
      .error (.malformedIncludesEntry (strL ("mapping: \"x.intent\""))) := by
  refine ⟨fun line k p h => includesEntryMatch_key h, ?_, by decide, by decide⟩
  intro k hk
  rcases include_key_cases hk with rfl | rfl | rfl | rfl | rfl | rfl <;>
    exact ⟨by decide, by decide⟩

/-- C6 witness: the amended statement instantiated at the key `schema`. -/
theorem C6_witness :
    INCLUDE_KEYSl.contains (strL ("schema")) = true ∧
    (includesEntryMatch (strL ("schema") ++ strL (": \"x.intent\"")) =
        some (strL ("schema"), strL ("x.intent")) ∧
      parseIncludes
          [strL ("INCLUDES \x7b"), strL ("schema") ++ strL (": \"x.intent\""),
           strL ("\x7d")] =
        .ok [(strL ("schema"), strL ("x.intent"))]) :=
  ⟨by decide, C6_include_keys.2.1 (strL ("schema")) (by decide)⟩

/-- C5: the Include Graph Resolver's per-entry checks run in the stated
order — absolute path, wrong extension, parent-traversal segment, missing
target — and when all pass, the target is validated with the package's
expected feature/version; resolution fails `IncludeFacetMismatchError`
exactly when the validated facet differs from the include key. -/
theorem C5_include_resolution (fs : FS) (entryDir : List Str)
    (expF expV key rel : Str) :
    (isAbsStr rel = true →
      resolveOneInclude fs entryDir expF expV key rel =
        .error (.includeAbsolutePath rel)) ∧
    (isAbsStr rel = false → intentExt.isSuffixOf rel = false →
      resolveOneInclude fs entryDir expF expV key rel =
        .error (.includeWrongExtension rel)) ∧
    (isAbsStr rel = false → intentExt.isSuffixOf rel = true →
      (pathParts rel).contains (strL ("..")) = true →
      resolveOneInclude fs entryDir expF expV key rel =
        .error (.includeTraversal rel)) ∧
    (isAbsStr rel = false → intentExt.isSuffixOf rel = true →
      (pathParts rel).contains (strL ("..")) = false →
      fsLookup fs (entryDir ++ pathParts rel) = none →
      resolveOneInclude fs entryDir expF expV key rel =
        .error (.includeMissing rel)) ∧
    (∀ content f c v, isAbsStr rel = false → intentExt.isSuffixOf rel = true →
      (pathParts rel).contains (strL ("..")) = false →
      fsLookup fs (entryDir ++ pathParts rel) = some content →
      validate_source_file content (entryDir ++ pathParts rel) (pkgRootOf expF)
        (some expF) (some expV) = .ok (f, c, v) →
      (resolveOneInclude fs entryDir expF expV key rel = .ok () ↔ c = key) ∧
      (c ≠ key →
        resolveOneInclude fs entryDir expF expV key rel =
          .error (.includeFacetMismatch rel c key))) := by
  refine ⟨?_, ?_, ?_, ?_, ?_⟩
  · intro h1
    rw [resolveOneInclude, if_pos h1]
  · intro h1 h2
    rw [resolveOneInclude, if_neg (by simp [h1]), if_pos (by simp [h2])]
  · intro h1 h2 h3
    rw [resolveOneInclude, if_neg (by simp [h1]), if_neg (by simp [h2]),
      if_pos h3]
  · intro h1 h2 h3 h4
    rw [resolveOneInclude, if_neg (by simp [h1]), if_neg (by simp [h2]),
      if_neg (by rw [h3]; exact Bool.false_ne_true), h4]
  · intro content f c v h1 h2 h3 h4 h5
    have hbase : resolveOneInclude fs entryDir expF expV key rel =
        (if c != key then .error (.includeFacetMismatch rel c key) else .ok ()) := by
      rw [resolveOneInclude, if_neg (by simp [h1]), if_neg (by simp [h2]),
        if_neg (by rw [h3]; exact Bool.false_ne_true), h4]
      show (match validate_source_file content (entryDir ++ pathParts rel)
              (pkgRootOf expF) (some expF) (some expV) with
            | Except.error e => Except.error e
            | Except.ok (_, facet, _) =>
              if facet != key then
                Except.error (Err.includeFacetMismatch rel facet key)
              else Except.ok ()) = _
      rw [h5]
    constructor
    · rw [hbase]
      by_cases hck : c = key
      · subst hck
        simp
      · rw [if_pos (by simpa using hck)]
        exact ⟨fun h => absurd h (by simp), fun h => absurd h hck⟩
    · intro hck
      rw [hbase, if_pos (by simpa using hck)]

/-- C5 witness: the resolution checks at the concrete package `weather`:
a matching include succeeds, a facet-mismatched key fails with the facet
error, a traversal path fails with the traversal error, an absolute path
with the absolute error, a wrong extension with the extension error, and a
missing target with the missing-file error. -/
theorem C5_witness :
    (resolveOneInclude
        { pkgDirs := [strL ("weather")],
          files := [(pkgRootOf (strL ("weather")) ++ [strL ("weather.schema.intent")],
            strL ("AIM: weather#schema@1.0\n"))] }
        (pkgRootOf (strL ("weather"))) (strL ("weather")) (strL ("1.0"))
        (strL ("schema")) (strL ("weather.schema.intent")) = .ok () ↔
      strL ("schema") = strL ("schema")) ∧
    (resolveOneInclude
        { pkgDirs := [strL ("weather")],
          files := [(pkgRootOf (strL ("weather")) ++ [strL ("weather.schema.intent")],
            strL ("AIM: weather#schema@1.0\n"))] }
        (pkgRootOf (strL ("weather"))) (strL ("weather")) (strL ("1.0"))
        (strL ("flow")) (strL ("weather.schema.intent")) =
      .error (.includeFacetMismatch (strL ("weather.schema.intent"))
        (strL ("schema")) (strL ("flow")))) ∧
    (resolveOneInclude
        { pkgDirs := [strL ("weather")],
          files := [(pkgRootOf (strL ("weather")) ++ [strL ("weather.schema.intent")],
            strL ("AIM: weather#schema@1.0\n"))] }
        (pkgRootOf (strL ("weather"))) (strL ("weather")) (strL ("1.0"))
        (strL ("schema")) (strL ("../x.intent")) =
      .error (.includeTraversal (strL ("../x.intent")))) ∧
    (resolveOneInclude
        { pkgDirs := [strL ("weather")], files := [] }
        (pkgRootOf (strL ("weather"))) (strL ("weather")) (strL ("1.0"))
        (strL ("schema")) (strL ("/abs/x.intent")) =
      .error (.includeAbsolutePath (strL ("/abs/x.intent")))) ∧
    (resolveOneInclude
        { pkgDirs := [strL ("weather")], files := [] }
        (pkgRootOf (strL ("weather"))) (strL ("weather")) (strL ("1.0"))
        (strL ("schema")) (strL ("x.txt")) =
      .error (.includeWrongExtension (strL ("x.txt")))) ∧
    (resolveOneInclude
        { pkgDirs := [strL ("weather")], files := [] }
        (pkgRootOf (strL ("weather"))) (strL ("weather")) (strL ("1.0"))
        (strL ("schema")) (strL ("missing.schema.intent")) =
      .error (.includeMissing (strL ("missing.schema.intent")))) :=
  ⟨((C5_include_resolution _ _ _ _ _ _).2.2.2.2 (strL ("AIM: weather#schema@1.0\n"))
      (strL ("weather")) (strL ("schema")) (strL ("1.0")) (by decide) (by decide)
      (by decide) (by decide) (by decide)).1,
   ((C5_include_resolution _ _ _ _ _ _).2.2.2.2 (strL ("AIM: weather#schema@1.0\n"))
      (strL ("weather")) (strL ("schema")) (strL ("1.0")) (by decide) (by decide)
      (by decide) (by decide) (by decide)).2 (by decide),
   (C5_include_resolution _ _ _ _ _ _).2.2.1 (by decide) (by decide) (by decide),
   (C5_include_resolution _ _ _ _ _ _).1 (by decide),
   (C5_include_resolution _ _ _ _ _ _).2.1 (by decide) (by decide),
   (C5_include_resolution _ _ _ _ _ _).2.2.2.1 (by decide) (by decide) (by decide)
     (by decide)⟩

/-- `e` is a source file (path, content) that the Source Validator accepts
with identity `i` in the package context `(name, version, pkgRoot)` —
mirroring one iteration of the package scan loop. -/
def ValidatesTo (name version : Str) (pkgRoot : List Str)
    (e : List Str × Str) (i : Str × Str) : Prop :=
  ∃ v', validate_source_file e.2 e.1 pkgRoot (some name) (some version) =
    .ok (i.1, i.2, v')

theorem lookup_none_of_keys {β : Type} {seen : List ((Str × Str) × β)}
    {k : Str × Str} (h : ∀ x ∈ seen, x.1 ≠ k) : seen.lookup k = none := by
  induction seen with
  | nil => rfl
  | cons e rest ih =>
    have hke : (k == e.1) = false :=
      beq_eq_false_iff_ne.mpr (fun he => (h e (List.mem_cons_self _ _)) he.symm)
    simp only [List.lookup, hke]
    exact ih (fun x hx => h x (List.mem_cons_of_mem _ hx))

theorem lookup_mem_nodup {β : Type} {seen : List ((Str × Str) × β)}
    {k : Str × Str} {v : β} (hnd : (seen.map Prod.fst).Nodup)
    (hm : (k, v) ∈ seen) : seen.lookup k = some v := by
  induction seen with
  | nil => cases hm
  | cons e rest ih =>
    rcases List.mem_cons.mp hm with rfl | hm'
    · simp [List.lookup]
    · have hnd' : (rest.map Prod.fst).Nodup := (List.nodup_cons.mp hnd).2
      have hke : (k == e.1) = false := by
        refine beq_eq_false_iff_ne.mpr (fun he => ?_)
        have hkmem : k ∈ rest.map Prod.fst :=
          List.mem_map.mpr ⟨(k, v), hm', rfl⟩
        exact (List.nodup_cons.mp hnd).1 (he ▸ hkmem)
      simp only [List.lookup, hke]
      exact ih hnd' hm'

theorem scanSources_skip (nm vv : Str) (root : List Str) :
    ∀ (sources : List (List Str × Str)) (ids : List (Str × Str))
      (rest : List (List Str × Str)) (seen : List ((Str × Str) × List Str))
      (intents : List (List Str)),
    List.Forall₂ (ValidatesTo nm vv root) sources ids →
    (∀ i ∈ ids, ∀ x ∈ seen, x.1 ≠ i) →
    ids.Nodup →
    ∃ intents', scanSources nm vv root (sources ++ rest) seen intents =
      scanSources nm vv root rest
        ((ids.zip (sources.map Prod.fst)).reverse ++ seen) intents' := by
  intro sources
  induction sources with
  | nil =>
    intro ids rest seen intents hfa _ _
    cases hfa
    exact ⟨intents, rfl⟩
  | cons e es ih =>
    intro ids rest seen intents hfa hdisj hnd
    cases hfa with
    | cons hrel hfa' =>
      rename_i i is
      obtain ⟨v', hval⟩ := hrel
      have hlk : seen.lookup (i.1, i.2) = none :=
        lookup_none_of_keys (fun x hx => hdisj i (List.mem_cons_self _ _) x hx)
      have hstep : scanSources nm vv root ((e :: es) ++ rest) seen intents =
          scanSources nm vv root (es ++ rest) (((i.1, i.2), e.1) :: seen)
            (if i.2 == strL ("intent") then e.1 :: intents else intents) := by
        rw [List.cons_append, scanSources, hval]
        show (match (seen.lookup (i.1, i.2)) with
              | some p0 =>
                Except.error (Err.duplicateIdentity i.1 i.2
                  (p0.drop root.length) (e.1.drop root.length))
              | none =>
                scanSources nm vv root (es ++ rest) (((i.1, i.2), e.1) :: seen)
                  (if i.2 == strL ("intent") then e.1 :: intents else intents)) =
            _
        rw [hlk]
      rw [hstep]
      have hdisj' : ∀ j ∈ is, ∀ x ∈ (((i.1, i.2), e.1) :: seen), x.1 ≠ j := by
        intro j hj x hx
        rcases List.mem_cons.mp hx with rfl | hx'
        · show (i.1, i.2) ≠ j
          intro he
          exact (List.nodup_cons.mp hnd).1 (by simpa [← he] using hj)
        · exact hdisj j (List.mem_cons_of_mem _ hj) x hx'
      obtain ⟨intents', hrec⟩ := ih is rest (((i.1, i.2), e.1) :: seen)
        (if i.2 == strL ("intent") then e.1 :: intents else intents)
        hfa' hdisj' (List.nodup_cons.mp hnd).2
      refine ⟨intents', ?_⟩
      rw [hrec]
      congr 1
      simp [List.reverse_cons, List.append_assoc]

/-- C7: in a package whose source scan encounters two distinct files that
both validate to the same identity `(d1, d2)` — with all identities before
the second of them pairwise distinct, so the collision is the one under
scrutiny — the scan fails `DuplicateIdentityError` carrying that identity
and both package-relative file paths, wherever in the scan order the two
files appear (so regardless of which is processed first). -/
theorem C7_duplicate_identity (nm vv : Str) (root : List Str)
    (A B Crest : List (List Str × Str)) (idsA idsB : List (Str × Str))
    (p q : List Str) (ctp ctq : Str) (d1 d2 : Str)
    (hA : List.Forall₂ (ValidatesTo nm vv root) A idsA)
    (hB : List.Forall₂ (ValidatesTo nm vv root) B idsB)
    (hp : ValidatesTo nm vv root (p, ctp) (d1, d2))
    (hq : ValidatesTo nm vv root (q, ctq) (d1, d2))
    (hnd : (idsA ++ (d1, d2) :: idsB).Nodup) :
    scanSources nm vv root (A ++ (p, ctp) :: B ++ (q, ctq) :: Crest) [] [] =
      .error (.duplicateIdentity d1 d2
        (p.drop root.length) (q.drop root.length)) := by
  have hfa : List.Forall₂ (ValidatesTo nm vv root)
      (A ++ (p, ctp) :: B) (idsA ++ (d1, d2) :: idsB) :=
    List.rel_append hA (List.Forall₂.cons hp hB)
  obtain ⟨intents', hrec⟩ := scanSources_skip nm vv root
    (A ++ (p, ctp) :: B) (idsA ++ (d1, d2) :: idsB) ((q, ctq) :: Crest) [] []
    hfa (by simp) hnd
  rw [show A ++ (p, ctp) :: B ++ (q, ctq) :: Crest =
      (A ++ (p, ctp) :: B) ++ ((q, ctq) :: Crest) by
    simp [List.append_assoc, List.cons_append]]
  rw [hrec]
  obtain ⟨vq', hvalq⟩ := hq
  have hlenA : idsA.length = (A.map Prod.fst).length := by
    rw [List.length_map]
    exact hA.length_eq.symm
  have hmapfst : (A ++ (p, ctp) :: B).map Prod.fst = A.map Prod.fst ++ p :: B.map Prod.fst := by
    simp
  have hzip : (idsA ++ (d1, d2) :: idsB).zip ((A ++ (p, ctp) :: B).map Prod.fst) =
      idsA.zip (A.map Prod.fst) ++ ((d1, d2), p) :: idsB.zip (B.map Prod.fst) := by
    rw [hmapfst, List.zip_append hlenA]
    rfl
  have hmem : (((d1, d2) : Str × Str), p) ∈
      ((idsA ++ (d1, d2) :: idsB).zip ((A ++ (p, ctp) :: B).map Prod.fst)).reverse
        ++ ([] : List ((Str × Str) × List Str)) := by
    rw [hzip]
    simp
  have hkeysnd : ((((idsA ++ (d1, d2) :: idsB).zip
      ((A ++ (p, ctp) :: B).map Prod.fst)).reverse
        ++ ([] : List ((Str × Str) × List Str))).map Prod.fst).Nodup := by
    rw [List.append_nil, List.map_reverse, List.map_fst_zip]
    · rw [List.nodup_reverse]
      exact hnd
    · have h1 := hA.length_eq
      have h2 := hB.length_eq
      simp only [List.length_append, List.length_map, List.length_cons]
      omega
  have hlook : ((((idsA ++ (d1, d2) :: idsB).zip
      ((A ++ (p, ctp) :: B).map Prod.fst)).reverse
        ++ ([] : List ((Str × Str) × List Str))).lookup
          (((d1 : Str), (d2 : Str)) : Str × Str)) = some p :=
    lookup_mem_nodup hkeysnd hmem
  rw [scanSources, hvalq]
  simp only [hlook]

/-- C7 witness: the package `weather` holding both a flat
`weather.schema.intent` and a nested `weather/schema.intent` fails with
the duplicate-identity error naming both paths, in either processing
order. -/
theorem C7_witness :
    scanSources (strL ("weather")) (strL ("1.0")) (pkgRootOf (strL ("weather")))
        [(pkgRootOf (strL ("weather")) ++ [strL ("weather.schema.intent")],
          strL ("AIM: weather#schema@1.0\n")),
         (pkgRootOf (strL ("weather")) ++ [strL ("weather"), strL ("schema.intent")],
          strL ("AIM: weather#schema@1.0\n"))] [] [] =
      .error (.duplicateIdentity (strL ("weather")) (strL ("schema"))
        [strL ("weather.schema.intent")] [strL ("weather"), strL ("schema.intent")]) ∧
    scanSources (strL ("weather")) (strL ("1.0")) (pkgRootOf (strL ("weather")))
        [(pkgRootOf (strL ("weather")) ++ [strL ("weather"), strL ("schema.intent")],
          strL ("AIM: weather#schema@1.0\n")),
         (pkgRootOf (strL ("weather")) ++ [strL ("weather.schema.intent")],
          strL ("AIM: weather#schema@1.0\n"))] [] [] =
      .error (.duplicateIdentity (strL ("weather")) (strL ("schema"))
        [strL ("weather"), strL ("schema.intent")] [strL ("weather.schema.intent")]) := by
  constructor
  · have h := C7_duplicate_identity (strL ("weather")) (strL ("1.0"))
      (pkgRootOf (strL ("weather"))) [] [] []
      [] []
      (pkgRootOf (strL ("weather")) ++ [strL ("weather.schema.intent")])
      (pkgRootOf (strL ("weather")) ++ [strL ("weather"), strL ("schema.intent")])
      (strL ("AIM: weather#schema@1.0\n")) (strL ("AIM: weather#schema@1.0\n"))
      (strL ("weather")) (strL ("schema"))
      List.Forall₂.nil List.Forall₂.nil
      ⟨strL ("1.0"), by decide⟩ ⟨strL ("1.0"), by decide⟩ (by simp)
    simpa using h
  · have h := C7_duplicate_identity (strL ("weather")) (strL ("1.0"))
      (pkgRootOf (strL ("weather"))) [] [] []
      [] []
      (pkgRootOf (strL ("weather")) ++ [strL ("weather"), strL ("schema.intent")])
      (pkgRootOf (strL ("weather")) ++ [strL ("weather.schema.intent")])
      (strL ("AIM: weather#schema@1.0\n")) (strL ("AIM: weather#schema@1.0\n"))
      (strL ("weather")) (strL ("schema"))
      List.Forall₂.nil List.Forall₂.nil
      ⟨strL ("1.0"), by decide⟩ ⟨strL ("1.0"), by decide⟩ (by simp)
    simpa using h

/-! ## Concrete registries for the index-level claims -/

/-- A minimal valid entry file for package `a`. -/
def exContentA : Str := strL ("AIM: a#intent@1.0\n")

/-- ROOT-relative path of package `a`'s entry file. -/
def exFileA : List Str :=
  [strL ("registry"), strL ("packages"), strL ("a"), strL ("a.intent")]

/-- Disk state with package directories `{a, c}` and a valid package `a`
(directory `c` holds no files, so no index entry for it can exist). -/
def exFS_ac : FS :=
  { pkgDirs := [strL ("a"), strL ("c")], files := [(exFileA, exContentA)] }

/-- Disk state with the single valid package directory `a`. -/
def exFS_a : FS :=
  { pkgDirs := [strL ("a")], files := [(exFileA, exContentA)] }

/-- Index descriptor of package `a` (valid). -/
def exPkgA : J :=
  .obj [(strL ("name"), .str (strL ("a"))),
        (strL ("version"), .str (strL ("1.0"))),
        (strL ("entry"), .str (strL ("registry/packages/a/a.intent")))]

/-- Index descriptor of package `b`, whose entry file does not exist on a
disk without directory `b`. -/
def exPkgB : J :=
  .obj [(strL ("name"), .str (strL ("b"))),
        (strL ("version"), .str (strL ("1.0"))),
        (strL ("entry"), .str (strL ("registry/packages/b/b.intent")))]

/-- Index declaring packages `{a, b}`. -/
def exIndexAB : J :=
  .obj [(strL ("version"), .str (strL ("1.0"))),
        (strL ("packages"), .arr [exPkgA, exPkgB])]

/-- Index declaring only package `a`. -/
def exIndexA : J :=
  .obj [(strL ("version"), .str (strL ("1.0"))),
        (strL ("packages"), .arr [exPkgA])]

/-- Index whose top-level `version` is bound to a number, not a string. -/
def exIndexNumVer : J :=
  .obj [(strL ("version"), .num 5),
        (strL ("packages"), .arr [exPkgA])]

/-- Whether a validation outcome is the package/index mismatch error. -/
def isMismatchErr : Except Err Nat → Bool
  | .error (.packageIndexMismatch _ _) => true
  | _ => false

/-- C1 counterexample: with index names `{a, b}` and disk directories
`{a, c}` the validation fails, but with the `entry does not exist` error
for `b` — not with any package/index mismatch report — because each index
entry's on-disk entry file is checked inside the per-package loop before
the set reconciliation runs. -/
theorem C1_counterexample :
    validateIndexAndPackages exIndexAB exFS_ac =
      .error (.entryDoesNotExist (strL ("b"))
        (strL ("registry/packages/b/b.intent"))) ∧
    isMismatchErr (validateIndexAndPackages exIndexAB exFS_ac) = false := by
  exact ⟨by decide, by decide⟩

/-- C1 amended: the `{a, b}` vs `{a, c}` scenario fails with the
entry-does-not-exist error for `b`, since entry existence is checked
before the set comparison; the mismatch report is reached when every index
entry validates — index `{a}` against disk `{a, c}` fails naming
`missing in index: [c]` with an empty `missing on disk` side. -/
theorem C1_index_disk_mismatch :
    validateIndexAndPackages exIndexAB exFS_ac =
      .error (.entryDoesNotExist (strL ("b"))
        (strL ("registry/packages/b/b.intent"))) ∧
    validateIndexAndPackages exIndexA exFS_ac =
      .error (.packageIndexMismatch [strL ("c")] []) := by
  exact ⟨by decide, by decide⟩

/-- C8 counterexample: an index whose `version` key holds the number `5`
— not a string — passes the schema stage and the whole validation of a
one-package registry, so a non-string `version` is not rejected. -/
theorem C8_counterexample :
    validateIndexAndPackages exIndexNumVer exFS_a = .ok 1 := by
  decide

/-- C8 amended: the schema stage rejects a non-object index document, a
missing `version` key, a missing `packages` key, and a `packages` value
that is not a non-empty array — but it never checks the type of the
`version` value, so the concrete non-string-version index validates. -/
theorem C8_index_schema :
    (∀ (fs : FS) (s : Str),
      validateIndexAndPackages (.str s) fs = .error .indexRootNotObject) ∧
    (∀ (fs : FS) (n : Int),
      validateIndexAndPackages (.num n) fs = .error .indexRootNotObject) ∧
    (∀ (fs : FS) (b : Bool),
      validateIndexAndPackages (.bool b) fs = .error .indexRootNotObject) ∧
    (∀ fs : FS,
      validateIndexAndPackages .null fs = .error .indexRootNotObject) ∧
    (∀ (fs : FS) (l : List J),
      validateIndexAndPackages (.arr l) fs = .error .indexRootNotObject) ∧
    (∀ (fs : FS) (kvs : List (Str × J)), jGet kvs (strL ("version")) = none →
      validateIndexAndPackages (.obj kvs) fs =
        .error (.indexMissingKey (strL ("version")))) ∧
    (∀ (fs : FS) (kvs : List (Str × J)),
      jGet kvs (strL ("version")) ≠ none →
      jGet kvs (strL ("packages")) = none →
      validateIndexAndPackages (.obj kvs) fs =
        .error (.indexMissingKey (strL ("packages")))) ∧
    (∀ (fs : FS) (kvs : List (Str × J)),
      jGet kvs (strL ("version")) ≠ none →
      jGet kvs (strL ("packages")) = some (.arr []) →
      validateIndexAndPackages (.obj kvs) fs = .error .packagesNotNonemptyArray) ∧
    (∀ (fs : FS) (kvs : List (Str × J)) (pj : J),
      jGet kvs (strL ("version")) ≠ none →
      jGet kvs (strL ("packages")) = some pj →
      (∀ l, pj ≠ J.arr l) →
      validateIndexAndPackages (.obj kvs) fs = .error .packagesNotNonemptyArray) ∧
    validateIndexAndPackages exIndexNumVer exFS_a = .ok 1 := by
  refine ⟨fun fs s => rfl, fun fs n => rfl, fun fs b => rfl, fun fs => rfl,
    fun fs l => rfl, ?_, ?_, ?_, ?_, by decide⟩
  · intro fs kvs h
    simp [validateIndexAndPackages, h]
  · intro fs kvs h1 h2
    obtain ⟨vj, hvj⟩ := Option.ne_none_iff_exists'.mp h1
    simp [validateIndexAndPackages, hvj, h2]
  · intro fs kvs h1 h2
    obtain ⟨vj, hvj⟩ := Option.ne_none_iff_exists'.mp h1
    simp [validateIndexAndPackages, hvj, h2]
  · intro fs kvs pj h1 h2 h3
    obtain ⟨vj, hvj⟩ := Option.ne_none_iff_exists'.mp h1
    cases pj with
    | arr l => exact absurd rfl (h3 l)
    | str s => simp [validateIndexAndPackages, hvj, h2]
    | num n => simp [validateIndexAndPackages, hvj, h2]
    | bool b => simp [validateIndexAndPackages, hvj, h2]
    | null => simp [validateIndexAndPackages, hvj, h2]
    | obj o => simp [validateIndexAndPackages, hvj, h2]

/-- C8 witness: the amended schema checks applied at concrete inputs — a
null document, an empty object, and an object with `version` but no
`packages`. -/
theorem C8_witness :
    validateIndexAndPackages .null exFS_a = .error .indexRootNotObject ∧
    validateIndexAndPackages (.obj []) exFS_a =
      .error (.indexMissingKey (strL ("version"))) ∧
    validateIndexAndPackages (.obj [(strL ("version"), .str (strL ("1.0")))]) exFS_a =
      .error (.indexMissingKey (strL ("packages"))) :=
  ⟨C8_index_schema.2.2.2.1 exFS_a,
   C8_index_schema.2.2.2.2.2.1 exFS_a [] rfl,
   C8_index_schema.2.2.2.2.2.2.1 exFS_a [(strL ("version"), .str (strL ("1.0")))]
     (by
       intro hn
       rw [show jGet [(strL ("version"), J.str (strL ("1.0")))] (strL ("version")) =
           some (J.str (strL ("1.0"))) from rfl] at hn
       cases hn) rfl⟩
